import Mathlib

/-!
Verification development for the `softnet-stat` tool (`src/main.rs`).

The tool parses `/proc/net/softnet_stat` — a multi-line table of
space-separated hexadecimal fields — into a sequence of `SoftnetStat`
records and renders them as a table, JSON, or Prometheus exposition text.

We shallowly embed the parsing pipeline.  Byte buffers are `List Nat`
(one `Nat` per byte).  The parser in the source is built from `nom 7`
combinators (`hex_u32`, `char ' '`, `line_ending`, `opt`, `preceded`,
`tuple`, `many1`); each combinator's semantics is translated here from
the nom library source, and `parse_softnet_line` / `parse_softnet_stats`
are translated from `src/main.rs`.  The JSON encoding follows the serde
derive semantics for the `SoftnetStat` struct (`#[derive(Serialize,
Deserialize)]` with `serde_json`), and the Prometheus renderer follows
the `prometheus` function of `src/main.rs`.
-/

namespace Softnet

/-- A byte buffer: one natural number per byte, as in `&[u8]`. -/
abbrev Bytes := List Nat

/-- The nom error kinds reachable in this program. `eof` from the explicit
empty-input check in `parse_softnet_line`, `isA` from `hex_u32`,
`chr` from `char ' '`, `crlf` from `line_ending`, `many1Kind` from the
`many1` zero-consumption guard. -/
inductive ErrKind where
  | eof
  | isA
  | chr
  | crlf
  | many1Kind
deriving DecidableEq, Repr

/-- A nom `IResult<&[u8], A>` with the simple `nom::error::Error` type:
on success the remaining input and the value, on failure the input
position at the failure and the error kind.  (The simple error type's
`append` returns the inner error unchanged, so wrappers like `many1`
surface the inner error.) -/
abbrev PResult (α : Type) := Except (Bytes × ErrKind) (Bytes × α)

/-- Is this byte an ASCII hex digit?  nom's `hex_u32` accepts
`0123456789abcdefABCDEF`. -/
def isHexDigitB (b : Nat) : Bool :=
  (48 ≤ b && b ≤ 57) || (97 ≤ b && b ≤ 102) || (65 ≤ b && b ≤ 70)

/-- The value of a hex digit byte, as `char::to_digit(16).unwrap_or(0)`. -/
def hexDigitVal (b : Nat) : Nat :=
  if 48 ≤ b && b ≤ 57 then b - 48
  else if 97 ≤ b && b ≤ 102 then b - 87
  else if 65 ≤ b && b ≤ 70 then b - 55
  else 0

/-- Big-endian base-16 value of a digit string; this is the `rev().enumerate()`
shift-and-or fold of nom's `hex_u32` (the shifted nibbles are disjoint, so
bitwise or is addition). -/
def hexVal (t : Bytes) : Nat :=
  t.foldl (fun acc b => acc * 16 + hexDigitVal b) 0

/-- nom's `nom::number::complete::hex_u32`: take the longest prefix of hex
digits (error `IsA` if it is empty), but consume at most 8 digits; the value
is the base-16 reading of the consumed digits. -/
def hex_u32 (input : Bytes) : PResult Nat :=
  let pre := input.takeWhile isHexDigitB
  if pre.isEmpty then .error (input, .isA)
  else if pre.length ≤ 8 then .ok (input.drop pre.length, hexVal pre)
  else .ok (input.drop 8, hexVal (input.take 8))

/-- The `space` helper of `src/main.rs`: nom's `char(' ')`. -/
def space (input : Bytes) : PResult Unit :=
  match input with
  | b :: rest => if b = 32 then .ok (rest, ()) else .error (input, .chr)
  | [] => .error (input, .chr)

/-- `preceded(space, hex_u32)`. -/
def phex (input : Bytes) : PResult Nat :=
  match space input with
  | .error e => .error e
  | .ok (rest, _) => hex_u32 rest

/-- `opt(preceded(space, hex_u32))`: on failure consume nothing and
return `none`. -/
def popt (input : Bytes) : PResult (Option Nat) :=
  match phex input with
  | .ok (rest, v) => .ok (rest, some v)
  | .error _ => .ok (input, none)

/-- nom's `nom::character::complete::line_ending`: `"\n"` or `"\r\n"`. -/
def line_ending (input : Bytes) : PResult Unit :=
  match input with
  | 10 :: rest => .ok (rest, ())
  | 13 :: 10 :: rest => .ok (rest, ())
  | _ => .error (input, .crlf)

/-- Network data processing statistics — the `SoftnetStat` struct of
`src/main.rs`.  The Rust fields are `u32` / `Option<u32>`; we use `Nat`
values (the parser only ever produces values below `2^32`, see
`wfStat`). -/
structure SoftnetStat where
  processed : Nat
  dropped : Nat
  time_squeeze : Nat
  cpu_collision : Nat
  received_rps : Option Nat
  flow_limit_count : Option Nat
  backlog_len : Option Nat
  cpu_id : Option Nat
deriving DecidableEq, Repr

/-- Sequencing of parse results. -/
def pbind (r : PResult α) (f : Bytes → α → PResult β) : PResult β :=
  match r with
  | .error e => .error e
  | .ok (i, a) => f i a

/-- `parse_softnet_line` of `src/main.rs`: the explicit empty-input `Eof`
check, then the 14-element `tuple` — `hex_u32`, eight
`preceded(space, hex_u32)`, four `opt(preceded(space, hex_u32))`,
`line_ending` — mapped onto `SoftnetStat` (tuple slots 3–7 are parsed but
not stored). -/
def parse_softnet_line (input : Bytes) : PResult SoftnetStat :=
  if input.isEmpty then .error (input, .eof) else
  pbind (hex_u32 input) fun i0 r0 =>          -- processed
  pbind (phex i0) fun i1 r1 =>                -- dropped
  pbind (phex i1) fun i2 r2 =>                -- time_squeeze
  pbind (phex i2) fun i3 _ =>
  pbind (phex i3) fun i4 _ =>
  pbind (phex i4) fun i5 _ =>
  pbind (phex i5) fun i6 _ =>
  pbind (phex i6) fun i7 _ =>
  pbind (phex i7) fun i8 r8 =>                -- cpu collision
  pbind (popt i8) fun i9 r9 =>                -- received_rps
  pbind (popt i9) fun i10 r10 =>              -- flow_limit_count
  pbind (popt i10) fun i11 r11 =>             -- backlog_len
  pbind (popt i11) fun i12 r12 =>             -- cpu_id
  pbind (line_ending i12) fun i13 _ =>
  .ok (i13, { processed := r0, dropped := r1, time_squeeze := r2,
              cpu_collision := r8, received_rps := r9,
              flow_limit_count := r10, backlog_len := r11, cpu_id := r12 })

/-- The loop of nom's `many1` after the first success: repeat the parser,
stopping (successfully) at the first failure; a round that consumes
nothing is an error (nom's infinite-loop guard, `i1 == i`, which for our
suffix-shaped remainders is length equality).  Fuel-indexed so that the
definition is structural; `input.length` fuel always suffices because
every successful round strictly shrinks the input. -/
def many1Loop : Nat → Bytes → List SoftnetStat → PResult (List SoftnetStat)
  | 0, input, acc => .ok (input, acc.reverse)
  | fuel + 1, input, acc =>
    match parse_softnet_line input with
    | .error _ => .ok (input, acc.reverse)
    | .ok (i1, st) =>
      if i1.length = input.length then .error (input, .many1Kind)
      else many1Loop fuel i1 (st :: acc)

/-- `parse_softnet_stats` of `src/main.rs`: `many1(parse_softnet_line)`.
The first application must succeed (its error is surfaced unchanged, since
the simple error type's `append` keeps the inner error); afterwards the
`many1Loop` runs on the remainder. -/
def parse_softnet_stats (input : Bytes) : PResult (List SoftnetStat) :=
  match parse_softnet_line input with
  | .error e => .error e
  | .ok (i1, st) => many1Loop i1.length i1 [st]

/-! ### Line building helpers (for stating properties about well-formed lines) -/

/-- A single hex field token: nonempty, at most 8 digits, all hex. -/
def isHexToken (t : Bytes) : Bool :=
  !t.isEmpty && t.length ≤ 8 && t.all isHexDigitB

/-- ` t₁ t₂ … tₙ` followed by `term`: each token preceded by one space. -/
def mkTail (tokens : List Bytes) (term : Bytes) : Bytes :=
  match tokens with
  | [] => term
  | t :: ts => 32 :: (t ++ mkTail ts term)

/-- A full input line `t₀ t₁ … tₙ` terminated by `"\n"` and followed by
`rest`. -/
def mkLineR (tokens : List Bytes) (rest : Bytes) : Bytes :=
  match tokens with
  | [] => 10 :: rest
  | t :: ts => t ++ mkTail ts (10 :: rest)

/-- A full input line terminated by `"\n"`. -/
def mkLine (tokens : List Bytes) : Bytes := mkLineR tokens []

/-- Byte list of a string (ASCII code points), for concrete test inputs. -/
def strBytes (s : String) : Bytes := s.toList.map Char.toNat

/-- The record a well-formed line of `tokens` parses to: mandatory values at
positions 0, 1, 2, 8; optional values at positions 9–12 (present exactly when
the token exists).  Positions 3–7 are parsed but not stored. -/
def mkStat (tokens : List Bytes) : SoftnetStat :=
  { processed := hexVal (tokens.getD 0 [])
    dropped := hexVal (tokens.getD 1 [])
    time_squeeze := hexVal (tokens.getD 2 [])
    cpu_collision := hexVal (tokens.getD 8 [])
    received_rps := (tokens.get? 9).map hexVal
    flow_limit_count := (tokens.get? 10).map hexVal
    backlog_len := (tokens.get? 11).map hexVal
    cpu_id := (tokens.get? 12).map hexVal }

/-- `true` iff the parse failed. -/
def isErrB : PResult α → Bool
  | .error _ => true
  | .ok _ => false

/-- `s` is a possible output of one line parse. -/
def lineOutput (s : SoftnetStat) : Prop :=
  ∃ i r, parse_softnet_line i = .ok (r, s)

/-- The optional fields never have a gap: a later-ordered optional field is
present only if all earlier-ordered ones are. -/
def monotoneShape (s : SoftnetStat) : Prop :=
  (s.flow_limit_count.isSome = true → s.received_rps.isSome = true) ∧
  (s.backlog_len.isSome = true → s.flow_limit_count.isSome = true) ∧
  (s.cpu_id.isSome = true → s.backlog_len.isSome = true)

instance (s : SoftnetStat) : Decidable (monotoneShape s) := by
  unfold monotoneShape; infer_instance

/-- All stored values fit in 32 bits (they came from `hex_u32`). -/
def wfStat (s : SoftnetStat) : Prop :=
  s.processed < 2 ^ 32 ∧ s.dropped < 2 ^ 32 ∧ s.time_squeeze < 2 ^ 32 ∧
  s.cpu_collision < 2 ^ 32 ∧
  (∀ v, s.received_rps = some v → v < 2 ^ 32) ∧
  (∀ v, s.flow_limit_count = some v → v < 2 ^ 32) ∧
  (∀ v, s.backlog_len = some v → v < 2 ^ 32) ∧
  (∀ v, s.cpu_id = some v → v < 2 ^ 32)

/-- How many of the four optional fields are present. -/
def optCount (s : SoftnetStat) : Nat :=
  (if s.received_rps.isSome then 1 else 0) +
  (if s.flow_limit_count.isSome then 1 else 0) +
  (if s.backlog_len.isSome then 1 else 0) +
  (if s.cpu_id.isSome then 1 else 0)

/-- Two records have the same optional-field shape. -/
def sameShape (a b : SoftnetStat) : Prop :=
  a.received_rps.isSome = b.received_rps.isSome ∧
  a.flow_limit_count.isSome = b.flow_limit_count.isSome ∧
  a.backlog_len.isSome = b.backlog_len.isSome ∧
  a.cpu_id.isSome = b.cpu_id.isSome

instance (a b : SoftnetStat) : Decidable (sameShape a b) := by
  unfold sameShape; infer_instance

/-- Map an ASCII uppercase hex digit to its lowercase form; other bytes
unchanged. -/
def lowerByte (b : Nat) : Nat :=
  if 65 ≤ b && b ≤ 70 then b + 32 else b

/-- Lowercase a whole token. -/
def lowerTok (t : Bytes) : Bytes := t.map lowerByte

/-! ### JSON model (serde derive semantics for `SoftnetStat`) -/

/-- The fragment of the `serde_json` value type this program can produce. -/
inductive Json where
  | null
  | num (n : Nat)
  | arr (xs : List Json)
  | obj (kvs : List (String × Json))

/-- An `Option<u32>` field serializes as the number or as `null`
(the derive has no `skip_serializing_if`). -/
def optToJson : Option Nat → Json
  | none => .null
  | some v => .num v

/-- Derived `Serialize` for `SoftnetStat`: an object with the struct's
fields in declaration order. -/
def statToJson (s : SoftnetStat) : Json :=
  .obj [("processed", .num s.processed), ("dropped", .num s.dropped),
        ("time_squeeze", .num s.time_squeeze),
        ("cpu_collision", .num s.cpu_collision),
        ("received_rps", optToJson s.received_rps),
        ("flow_limit_count", optToJson s.flow_limit_count),
        ("backlog_len", optToJson s.backlog_len),
        ("cpu_id", optToJson s.cpu_id)]

/-- `&[SoftnetStat]` serializes as an array. -/
def statsToJson (l : List SoftnetStat) : Json := .arr (l.map statToJson)

/-- First binding of a key in an object (objects produced by the encoder
never repeat a key; serde errors on duplicates). -/
def jLookup (kvs : List (String × Json)) (k : String) : Option Json :=
  match kvs with
  | [] => none
  | (k', v) :: rest => if k' = k then some v else jLookup rest k

/-- Deserializing a `u32`: a number that fits in 32 bits. -/
def decodeU32 : Json → Option Nat
  | .num n => if n < 2 ^ 32 then some n else none
  | _ => none

/-- Deserializing an `Option<u32>` field: a missing field or `null` is
`None` (serde's default for `Option` fields), a 32-bit number is `Some`. -/
def decodeOptU32 : Option Json → Option (Option Nat)
  | none => some none
  | some .null => some none
  | some (.num n) => if n < 2 ^ 32 then some (some n) else none
  | some _ => none

/-- Derived `Deserialize` for `SoftnetStat` from an object. -/
def statFromJson : Json → Option SoftnetStat
  | .obj kvs => do
    let p ← (jLookup kvs "processed").bind decodeU32
    let d ← (jLookup kvs "dropped").bind decodeU32
    let ts ← (jLookup kvs "time_squeeze").bind decodeU32
    let cc ← (jLookup kvs "cpu_collision").bind decodeU32
    let rps ← decodeOptU32 (jLookup kvs "received_rps")
    let flc ← decodeOptU32 (jLookup kvs "flow_limit_count")
    let bl ← decodeOptU32 (jLookup kvs "backlog_len")
    let cid ← decodeOptU32 (jLookup kvs "cpu_id")
    some ⟨p, d, ts, cc, rps, flc, bl, cid⟩
  | _ => none

/-- Deserializing the elements of an array one after the other. -/
def decodeStatList : List Json → Option (List SoftnetStat)
  | [] => some []
  | x :: xs =>
    match statFromJson x, decodeStatList xs with
    | some s, some l => some (s :: l)
    | _, _ => none

/-- Derived `Deserialize` for `Vec<SoftnetStat>`. -/
def statsFromJson : Json → Option (List SoftnetStat)
  | .arr xs => decodeStatList xs
  | _ => none

/-! ### Prometheus renderer model (`prometheus` of `src/main.rs`) -/

/-- The `cpu="cpu<N>"` label block of one exposition line. -/
def promLabel (n : Nat) : String := "\x7bcpu=\"cpu" ++ toString n ++ "\"\x7d"

/-- One exposition line: `name{cpu="cpuN"} value`. -/
def promLine (name : String) (n v : Nat) : String :=
  name ++ promLabel n ++ " " ++ toString v

/-- The seven lines printed for the record at 0-based position `i`.
The label index is `stat.cpu_id.unwrap_or(i as u32)`; the `usize → u32`
cast truncates, hence `i % 2^32`.  Missing optional values print as `0`
(`unwrap_or_default`). -/
def promRecord (i : Nat) (s : SoftnetStat) : List String :=
  let cpu_id := s.cpu_id.getD (i % 2 ^ 32)
  [promLine "softnet_frames_processed" cpu_id s.processed,
   promLine "softnet_frames_dropped" cpu_id s.dropped,
   promLine "softnet_time_squeeze" cpu_id s.time_squeeze,
   promLine "softnet_cpu_collisions" cpu_id s.cpu_collision,
   promLine "softnet_received_rps" cpu_id (s.received_rps.getD 0),
   promLine "softnet_flow_limit_count" cpu_id (s.flow_limit_count.getD 0),
   promLine "softnet_backlog_len" cpu_id (s.backlog_len.getD 0)]

/-- The whole Prometheus output, one string per printed line
(`stats.iter().enumerate()`). -/
def prometheus (stats : List SoftnetStat) : List String :=
  (stats.enum.map fun p => promRecord p.1 p.2).flatten

/-- The metric names emitted, in order. -/
def promNames : List String :=
  ["softnet_frames_processed", "softnet_frames_dropped",
   "softnet_time_squeeze", "softnet_cpu_collisions",
   "softnet_received_rps", "softnet_flow_limit_count",
   "softnet_backlog_len"]

/-- Char-list prefix test. -/
def listPfx : List Char → List Char → Bool
  | [], _ => true
  | _ :: _, [] => false
  | a :: as, b :: bs => a == b && listPfx as bs

/-- Char-list substring test. -/
def hasSub : List Char → List Char → Bool
  | p, [] => listPfx p []
  | p, b :: rest => listPfx p (b :: rest) || hasSub p rest

/-- The all-zero record with no optional fields (for concrete examples). -/
def stat0 : SoftnetStat :=
  ⟨0, 0, 0, 0, none, none, none, none⟩

/-! ## Theorems -/

/-! ### Step lemmas for the nom combinators -/

theorem pbind_ok (i : Bytes) (a : α) (f : Bytes → α → PResult β) :
    pbind (.ok (i, a)) f = f i a := rfl

theorem pbind_error (e : Bytes × ErrKind) (f : Bytes → α → PResult β) :
    pbind (.error e) f = .error e := rfl

theorem takeWhile_tok_append {p : Nat → Bool} {t : Bytes} (ht : t.all p = true)
    {b : Nat} (hb : p b = false) (r : Bytes) :
    (t ++ b :: r).takeWhile p = t := by
  induction t with
  | nil => simp [List.takeWhile_cons, hb]
  | cons a t ih =>
    simp only [List.all_cons, Bool.and_eq_true] at ht
    simp [List.takeWhile_cons, ht.1, ih ht.2]

/-- `hex_u32` on a hex token followed by a non-hex byte consumes exactly the
token. -/
theorem hex_u32_tok {t : Bytes} (ht : isHexToken t = true) {b : Nat}
    (hb : isHexDigitB b = false) (r : Bytes) :
    hex_u32 (t ++ b :: r) = .ok (b :: r, hexVal t) := by
  obtain ⟨⟨hne, hlen⟩, hall⟩ :
      ((!t.isEmpty) = true ∧ t.length ≤ 8) ∧ t.all isHexDigitB = true := by
    simpa [isHexToken, Bool.and_eq_true, decide_eq_true_iff] using ht
  rw [hex_u32]
  simp only [takeWhile_tok_append hall hb]
  rw [if_neg (by simpa using hne), if_pos hlen, List.drop_left]

theorem space_cons (r : Bytes) : space (32 :: r) = .ok (r, ()) := rfl

theorem space_ne {b : Nat} (hb : ¬ b = 32) (r : Bytes) :
    space (b :: r) = .error (b :: r, .chr) := by
  simp [space, hb]

theorem phex_tok {t : Bytes} (ht : isHexToken t = true) {b : Nat}
    (hb : isHexDigitB b = false) (r : Bytes) :
    phex (32 :: (t ++ b :: r)) = .ok (b :: r, hexVal t) := by
  simp [phex, space_cons, hex_u32_tok ht hb]

theorem popt_tok {t : Bytes} (ht : isHexToken t = true) {b : Nat}
    (hb : isHexDigitB b = false) (r : Bytes) :
    popt (32 :: (t ++ b :: r)) = .ok (b :: r, some (hexVal t)) := by
  simp [popt, phex_tok ht hb]

theorem popt_ne {b : Nat} (hb : ¬ b = 32) (r : Bytes) :
    popt (b :: r) = .ok (b :: r, none) := by
  simp [popt, phex, space_ne hb]

theorem popt_nl (r : Bytes) : popt (10 :: r) = .ok (10 :: r, none) :=
  popt_ne (by decide) r

theorem line_ending_nl (r : Bytes) : line_ending (10 :: r) = .ok (r, ()) := rfl

theorem not_isEmpty_of_tok {t : Bytes} (ht : isHexToken t = true) (r : Bytes) :
    (t ++ r).isEmpty = false := by
  rcases t with _ | ⟨a, t⟩
  · simp [isHexToken] at ht
  · rfl

theorem isHexDigitB_space : isHexDigitB 32 = false := rfl

theorem isHexDigitB_nl : isHexDigitB 10 = false := rfl

/-- Characterization of the line parser on a well-formed line: a line of 9 to
13 hex tokens (each one preceded by a single space, terminated by `"\n"`)
parses successfully, consumes the whole line, and yields `mkStat tokens`. -/
theorem parse_line_tokens (tokens : List Bytes) (rest : Bytes)
    (hall : ∀ t ∈ tokens, isHexToken t = true)
    (h9 : 9 ≤ tokens.length) (h13 : tokens.length ≤ 13) :
    parse_softnet_line (mkLineR tokens rest) = .ok (rest, mkStat tokens) := by
  rcases tokens with _ | ⟨t0, _ | ⟨t1, _ | ⟨t2, _ | ⟨t3, _ | ⟨t4, _ | ⟨t5, _ |
    ⟨t6, _ | ⟨t7, _ | ⟨t8, opts⟩⟩⟩⟩⟩⟩⟩⟩⟩ <;>
    try (exfalso; simp at h9; done)
  rcases opts with _ | ⟨o1, _ | ⟨o2, _ | ⟨o3, _ | ⟨o4, _ | ⟨o5, l⟩⟩⟩⟩⟩ <;>
    try (exfalso; simp at h13; done)
  all_goals
    simp [parse_softnet_line, mkLineR, mkTail, pbind, mkStat,
      hex_u32_tok, phex_tok, popt_tok, popt_nl, line_ending_nl,
      not_isEmpty_of_tok, isHexDigitB_space, isHexDigitB_nl, hall]

/-! ### Value bounds: every parsed field fits in 32 bits -/

theorem hexDigitVal_lt (b : Nat) : hexDigitVal b < 16 := by
  unfold hexDigitVal
  split_ifs with h1 h2 h3 <;>
    simp only [Bool.and_eq_true, decide_eq_true_eq] at * <;> omega

theorem hexVal_foldl_lt (t : Bytes) :
    ∀ acc : Nat, t.foldl (fun acc b => acc * 16 + hexDigitVal b) acc <
      (acc + 1) * 16 ^ t.length := by
  induction t with
  | nil => intro acc; simp
  | cons b t ih =>
    intro acc
    calc (b :: t).foldl (fun acc b => acc * 16 + hexDigitVal b) acc
        = t.foldl (fun acc b => acc * 16 + hexDigitVal b) (acc * 16 + hexDigitVal b) := rfl
      _ < (acc * 16 + hexDigitVal b + 1) * 16 ^ t.length := ih _
      _ ≤ (acc + 1) * 16 ^ (b :: t).length := by
          have hd : hexDigitVal b + 1 ≤ 16 := hexDigitVal_lt b
          have h1 : (acc * 16 + hexDigitVal b + 1) ≤ (acc + 1) * 16 := by omega
          calc (acc * 16 + hexDigitVal b + 1) * 16 ^ t.length
              ≤ ((acc + 1) * 16) * 16 ^ t.length := Nat.mul_le_mul_right _ h1
            _ = (acc + 1) * 16 ^ (t.length + 1) := by ring
            _ = (acc + 1) * 16 ^ (b :: t).length := by simp

theorem hexVal_lt (t : Bytes) (h : t.length ≤ 8) : hexVal t < 2 ^ 32 := by
  have h1 : hexVal t < 1 * 16 ^ t.length := hexVal_foldl_lt t 0
  have h2 : (16 : Nat) ^ t.length ≤ 16 ^ 8 := Nat.pow_le_pow_right (by norm_num) h
  calc hexVal t < 1 * 16 ^ t.length := h1
    _ ≤ 16 ^ 8 := by simpa using h2
    _ ≤ 2 ^ 32 := by norm_num

/-! ### Per-combinator facts: remainders are suffixes, values are 32-bit -/

theorem hex_u32_ok {input i' : Bytes} {v : Nat} (h : hex_u32 input = .ok (i', v)) :
    i' <:+ input ∧ v < 2 ^ 32 := by
  simp only [hex_u32] at h
  split at h
  · simp at h
  split at h
  · rename_i h2
    have h3 : input.drop (input.takeWhile isHexDigitB).length = i' ∧
        hexVal (input.takeWhile isHexDigitB) = v := by simpa using h
    exact ⟨h3.1 ▸ List.drop_suffix _ _, h3.2 ▸ hexVal_lt _ h2⟩
  · have h3 : input.drop 8 = i' ∧ hexVal (input.take 8) = v := by simpa using h
    refine ⟨h3.1 ▸ List.drop_suffix _ _, h3.2 ▸ hexVal_lt _ ?_⟩
    rw [List.length_take]
    exact Nat.min_le_left _ _

theorem space_sfx {input i' : Bytes} {u : Unit} (h : space input = .ok (i', u)) :
    i' <:+ input := by
  rcases input with _ | ⟨b, r⟩
  · simp [space] at h
  · simp only [space] at h
    split at h
    · have h1 : r = i' := by simpa using h
      exact h1 ▸ List.suffix_cons b r
    · simp at h

theorem phex_ok {input i' : Bytes} {v : Nat} (h : phex input = .ok (i', v)) :
    i' <:+ input ∧ v < 2 ^ 32 := by
  rw [phex] at h
  split at h
  · simp at h
  · rename_i rest u he
    obtain ⟨hj, hv⟩ := hex_u32_ok h
    exact ⟨hj.trans (space_sfx he), hv⟩

theorem popt_ok {input i' : Bytes} {o : Option Nat} (h : popt input = .ok (i', o)) :
    i' <:+ input ∧ ∀ v, o = some v → v < 2 ^ 32 := by
  rw [popt] at h
  split at h
  · rename_i rest v hp
    obtain ⟨h1, h2⟩ : rest = i' ∧ (some v : Option Nat) = o := by simpa using h
    obtain ⟨hj, hv⟩ := phex_ok hp
    subst h1
    exact ⟨hj, by rw [← h2]; intro w hw; exact (by simpa using hw : v = w) ▸ hv⟩
  · rename_i e hp
    obtain ⟨h1, h2⟩ : input = i' ∧ (none : Option Nat) = o := by simpa using h
    subst h1
    exact ⟨List.suffix_refl _, by rw [← h2]; intro w hw; simp at hw⟩

theorem popt_none_eq {i i' : Bytes} (h : popt i = .ok (i', none)) :
    i' = i ∧ popt i = .ok (i, none) := by
  rw [popt] at h
  split at h
  · simp at h
  · rename_i e hp
    have h1 : i = i' := by simpa using h
    subst h1
    exact ⟨rfl, by rw [popt, hp]⟩

/-- If one optional field came out absent, the next one did too (the next
`opt` runs the very same parser on the very same input). -/
theorem popt_chain {a b c : Bytes} {rb rc : Option Nat}
    (hA : popt a = .ok (b, rb)) (hB : popt b = .ok (c, rc)) (hb : rb = none) :
    rc = none := by
  subst hb
  obtain ⟨rfl, hA'⟩ := popt_none_eq hA
  rw [hA'] at hB
  obtain ⟨-, h2⟩ : b = c ∧ (none : Option Nat) = rc := by simpa using hB
  exact h2.symm

theorem line_ending_sfx {input i' : Bytes} {u : Unit}
    (h : line_ending input = .ok (i', u)) : i' <:+ input := by
  rw [line_ending.eq_def] at h
  split at h
  · rename_i rest
    have h1 : rest = i' := by simpa using h
    exact h1 ▸ List.suffix_cons _ _
  · rename_i rest
    have h1 : rest = i' := by simpa using h
    exact h1 ▸ (List.suffix_cons _ _).trans (List.suffix_cons _ _)
  · simp at h

/-- Grind lemma: everything a successful `parse_softnet_line` guarantees. -/
theorem parse_line_ok_spec {input rest : Bytes} {st : SoftnetStat}
    (h : parse_softnet_line input = .ok (rest, st)) :
    rest <:+ input ∧ monotoneShape st ∧ wfStat st := by
  rw [parse_softnet_line] at h
  split at h
  · simp at h
  rcases e0 : hex_u32 input with err | ⟨i0, r0⟩
  · simp [e0, pbind] at h
  simp only [e0, pbind] at h
  rcases e1 : phex i0 with err | ⟨i1, r1⟩
  · simp [e1, pbind] at h
  simp only [e1, pbind] at h
  rcases e2 : phex i1 with err | ⟨i2, r2⟩
  · simp [e2, pbind] at h
  simp only [e2, pbind] at h
  rcases e3 : phex i2 with err | ⟨i3, r3⟩
  · simp [e3, pbind] at h
  simp only [e3, pbind] at h
  rcases e4 : phex i3 with err | ⟨i4, r4⟩
  · simp [e4, pbind] at h
  simp only [e4, pbind] at h
  rcases e5 : phex i4 with err | ⟨i5, r5⟩
  · simp [e5, pbind] at h
  simp only [e5, pbind] at h
  rcases e6 : phex i5 with err | ⟨i6, r6⟩
  · simp [e6, pbind] at h
  simp only [e6, pbind] at h
  rcases e7 : phex i6 with err | ⟨i7, r7⟩
  · simp [e7, pbind] at h
  simp only [e7, pbind] at h
  rcases e8 : phex i7 with err | ⟨i8, r8⟩
  · simp [e8, pbind] at h
  simp only [e8, pbind] at h
  rcases e9 : popt i8 with err | ⟨i9, r9⟩
  · simp [e9, pbind] at h
  simp only [e9, pbind] at h
  rcases e10 : popt i9 with err | ⟨i10, r10⟩
  · simp [e10, pbind] at h
  simp only [e10, pbind] at h
  rcases e11 : popt i10 with err | ⟨i11, r11⟩
  · simp [e11, pbind] at h
  simp only [e11, pbind] at h
  rcases e12 : popt i11 with err | ⟨i12, r12⟩
  · simp [e12, pbind] at h
  simp only [e12, pbind] at h
  rcases e13 : line_ending i12 with err | ⟨i13, u13⟩
  · simp [e13, pbind] at h
  simp only [e13, pbind] at h
  obtain ⟨rfl, rfl⟩ : i13 = rest ∧
      ({ processed := r0, dropped := r1, time_squeeze := r2,
         cpu_collision := r8, received_rps := r9, flow_limit_count := r10,
         backlog_len := r11, cpu_id := r12 } : SoftnetStat) = st := by
    simpa using h
  refine ⟨?_, ?_, ?_⟩
  · exact (line_ending_sfx e13).trans <| (popt_ok e12).1.trans <|
      (popt_ok e11).1.trans <| (popt_ok e10).1.trans <| (popt_ok e9).1.trans <|
      (phex_ok e8).1.trans <| (phex_ok e7).1.trans <| (phex_ok e6).1.trans <|
      (phex_ok e5).1.trans <| (phex_ok e4).1.trans <| (phex_ok e3).1.trans <|
      (phex_ok e2).1.trans <| (phex_ok e1).1.trans (hex_u32_ok e0).1
  · have c1 : r9 = none → r10 = none := popt_chain e9 e10
    have c2 : r10 = none → r11 = none := popt_chain e10 e11
    have c3 : r11 = none → r12 = none := popt_chain e11 e12
    refine ⟨?_, ?_, ?_⟩ <;> intro hs
    · rcases hr : r9 with - | v
      · rw [c1 hr] at hs; simp at hs
      · simp
    · rcases hr : r10 with - | v
      · rw [c2 hr] at hs; simp at hs
      · simp
    · rcases hr : r11 with - | v
      · rw [c3 hr] at hs; simp at hs
      · simp
  · exact ⟨(hex_u32_ok e0).2, (phex_ok e1).2, (phex_ok e2).2, (phex_ok e8).2,
      (popt_ok e9).2, (popt_ok e10).2, (popt_ok e11).2, (popt_ok e12).2⟩

/-! ### Failure on short lines -/

theorem hex_u32_nl (r : Bytes) : hex_u32 (10 :: r) = .error (10 :: r, .isA) := by
  simp [hex_u32, List.takeWhile_cons, isHexDigitB_nl]

theorem phex_nl (r : Bytes) : phex (10 :: r) = .error (10 :: r, .chr) := by
  simp [phex, space]

theorem isErrB_iff (r : PResult α) : isErrB r = true ↔ ∃ e, r = .error e := by
  cases r <;> simp [isErrB]

/-- A line holding at most 8 hex fields before its terminator fails to
parse, whatever follows the terminator: the 9 mandatory fields are never
optional. -/
theorem parse_line_short (tokens : List Bytes) (rest : Bytes)
    (hall : ∀ t ∈ tokens, isHexToken t = true) (h8 : tokens.length ≤ 8) :
    isErrB (parse_softnet_line (mkLineR tokens rest)) = true := by
  rcases tokens with _ | ⟨t0, _ | ⟨t1, _ | ⟨t2, _ | ⟨t3, _ | ⟨t4, _ | ⟨t5, _ |
    ⟨t6, _ | ⟨t7, _ | ⟨t8, l⟩⟩⟩⟩⟩⟩⟩⟩⟩ <;> try (exfalso; simp at h8; done)
  all_goals
    simp [parse_softnet_line, mkLineR, mkTail, pbind, isErrB,
      hex_u32_tok, hex_u32_nl, phex_tok, phex_nl, not_isEmpty_of_tok,
      isHexDigitB_space, isHexDigitB_nl, hall]

/-! ### Whole-input parse (`many1`) -/

theorem many1Loop_ok (fuel : Nat) :
    ∀ (input : Bytes) (acc : List SoftnetStat) (rest : Bytes)
      (stats : List SoftnetStat),
      input.length ≤ fuel →
      many1Loop fuel input acc = .ok (rest, stats) →
      rest <:+ input ∧
        (∃ l, stats = acc.reverse ++ l ∧ ∀ s ∈ l, lineOutput s) ∧
        ∃ e, parse_softnet_line rest = .error e := by
  induction fuel with
  | zero =>
    intro input acc rest stats hf h
    have hi : input = [] := List.length_eq_zero.mp (Nat.le_zero.mp hf)
    subst hi
    obtain ⟨rfl, rfl⟩ : ([] : Bytes) = rest ∧ acc.reverse = stats := by
      simpa [many1Loop] using h
    exact ⟨List.suffix_refl _, ⟨[], by simp, by simp⟩, ⟨([], .eof), rfl⟩⟩
  | succ fuel ih =>
    intro input acc rest stats hf h
    rw [many1Loop] at h
    split at h
    · rename_i e he
      obtain ⟨rfl, rfl⟩ : input = rest ∧ acc.reverse = stats := by simpa using h
      exact ⟨List.suffix_refl _, ⟨[], by simp, by simp⟩, ⟨e, he⟩⟩
    · rename_i i1 st hp
      split at h
      · simp at h
      · rename_i hne
        have hsfx : i1 <:+ input := (parse_line_ok_spec hp).1
        have hlen : i1.length < input.length :=
          lt_of_le_of_ne hsfx.length_le hne
        have hf1 : i1.length ≤ fuel := by omega
        obtain ⟨h1, ⟨l, hl, hlo⟩, h3⟩ := ih i1 (st :: acc) rest stats hf1 h
        refine ⟨h1.trans hsfx, ⟨st :: l, ?_, ?_⟩, h3⟩
        · rw [hl]; simp
        · intro s hs
          rcases List.mem_cons.mp hs with rfl | hs
          · exact ⟨input, i1, hp⟩
          · exact hlo s hs

/-- Everything a successful `parse_softnet_stats` guarantees: the remainder
is a suffix of the input, at least one record was produced, every record is
the output of one line parse, and no further line parse is possible at the
remainder (the consumed prefix is maximal). -/
theorem parse_stats_ok {input rest : Bytes} {stats : List SoftnetStat}
    (h : parse_softnet_stats input = .ok (rest, stats)) :
    rest <:+ input ∧ stats ≠ [] ∧ (∀ s ∈ stats, lineOutput s) ∧
      ∃ e, parse_softnet_line rest = .error e := by
  rw [parse_softnet_stats] at h
  split at h
  · simp at h
  · rename_i i1 st hp
    obtain ⟨h1, ⟨l, hl, hlo⟩, h3⟩ :=
      many1Loop_ok i1.length i1 [st] rest stats le_rfl h
    have hsfx : i1 <:+ input := (parse_line_ok_spec hp).1
    have hst : stats = st :: l := by simpa using hl
    refine ⟨h1.trans hsfx, ?_, ?_, h3⟩
    · rw [hst]; simp
    · intro s hs
      rw [hst] at hs
      rcases List.mem_cons.mp hs with rfl | hs
      · exact ⟨input, i1, hp⟩
      · exact hlo s hs

/-! ### Optional-field counting -/

theorem get?_isSome_eq (l : List α) (i : Nat) :
    (l.get? i).isSome = decide (i < l.length) := by
  rcases h : l.get? i with - | a
  · rw [List.get?_eq_none] at h
    simp [Nat.not_lt.mpr h]
  · obtain ⟨hlt, -⟩ := List.get?_eq_some.mp h
    simp [hlt]

theorem optCount_mkStat (tokens : List Bytes) (h9 : 9 ≤ tokens.length)
    (h13 : tokens.length ≤ 13) :
    optCount (mkStat tokens) = tokens.length - 9 := by
  simp only [optCount, mkStat, Option.isSome_map', get?_isSome_eq,
    decide_eq_true_eq]
  split_ifs <;> omega

theorem monotoneShape_mkStat (tokens : List Bytes) :
    monotoneShape (mkStat tokens) := by
  simp only [monotoneShape, mkStat, Option.isSome_map', get?_isSome_eq,
    decide_eq_true_eq]
  omega

/-! ### Case-insensitivity of the hex digits -/

theorem hexDigitVal_lower (b : Nat) : hexDigitVal (lowerByte b) = hexDigitVal b := by
  unfold lowerByte
  split_ifs with h
  · simp only [Bool.and_eq_true, decide_eq_true_eq] at h
    unfold hexDigitVal
    split_ifs <;> simp_all [Bool.and_eq_true, decide_eq_true_eq] <;> omega
  · rfl

theorem isHexDigitB_lower {b : Nat} (h : isHexDigitB b = true) :
    isHexDigitB (lowerByte b) = true := by
  simp only [isHexDigitB, Bool.or_eq_true, Bool.and_eq_true,
    decide_eq_true_eq] at h ⊢
  unfold lowerByte
  split_ifs with hb <;>
    simp only [Bool.and_eq_true, decide_eq_true_eq] at hb <;> omega

theorem isEmpty_map (f : α → β) (l : List α) : (l.map f).isEmpty = l.isEmpty := by
  cases l <;> rfl

theorem isHexToken_lower {t : Bytes} (h : isHexToken t = true) :
    isHexToken (lowerTok t) = true := by
  have h' : ((!t.isEmpty) = true ∧ t.length ≤ 8) ∧
      ∀ x ∈ t, isHexDigitB x = true := by
    simpa [isHexToken, Bool.and_eq_true, decide_eq_true_iff,
      List.all_eq_true] using h
  have hres : ((!(lowerTok t).isEmpty) = true ∧ (lowerTok t).length ≤ 8) ∧
      ∀ x ∈ lowerTok t, isHexDigitB x = true := by
    refine ⟨⟨?_, ?_⟩, ?_⟩
    · rw [lowerTok, isEmpty_map]; exact h'.1.1
    · rw [lowerTok, List.length_map]; exact h'.1.2
    · intro x hx
      obtain ⟨y, hy, rfl⟩ := List.mem_map.mp hx
      exact isHexDigitB_lower (h'.2 y hy)
  simpa [isHexToken, Bool.and_eq_true, decide_eq_true_iff,
    List.all_eq_true] using hres

theorem hexVal_lower (t : Bytes) : hexVal (lowerTok t) = hexVal t := by
  rw [lowerTok, hexVal, hexVal]
  suffices hs : ∀ acc, (t.map lowerByte).foldl
      (fun acc b => acc * 16 + hexDigitVal b) acc =
      t.foldl (fun acc b => acc * 16 + hexDigitVal b) acc from hs 0
  induction t with
  | nil => intro acc; rfl
  | cons b t ih =>
    intro acc
    simp only [List.map_cons, List.foldl_cons, hexDigitVal_lower]
    exact ih _

theorem mkStat_lower (tokens : List Bytes) :
    mkStat (tokens.map lowerTok) = mkStat tokens := by
  have hopt : ∀ x : Option Bytes, (x.map lowerTok).map hexVal = x.map hexVal := by
    intro x
    rcases x with - | t
    · rfl
    · simp [hexVal_lower]
  have hD : ∀ x : Option Bytes,
      hexVal ((x.map lowerTok).getD []) = hexVal (x.getD []) := by
    intro x
    rcases x with - | t
    · rfl
    · simp [hexVal_lower]
  simp only [mkStat, List.getD_eq_get?, List.get?_map, hopt, hD]

/-- `mkStat` only reads token positions 0, 1, 2 and 8–12: lines agreeing
there (the legacy slots 3–7 are free) produce the same record. -/
theorem mkStat_congr (ts1 ts2 : List Bytes)
    (hagree : ∀ i, i < 13 → (i < 3 ∨ 8 ≤ i) → ts1.get? i = ts2.get? i) :
    mkStat ts1 = mkStat ts2 := by
  simp only [mkStat, List.getD_eq_get?]
  rw [hagree 0 (by omega) (by omega), hagree 1 (by omega) (by omega),
    hagree 2 (by omega) (by omega), hagree 8 (by omega) (by omega),
    hagree 9 (by omega) (by omega), hagree 10 (by omega) (by omega),
    hagree 11 (by omega) (by omega), hagree 12 (by omega) (by omega)]

/-! ### JSON round-trip -/

theorem statFromJson_statToJson (s : SoftnetStat) (hw : wfStat s) :
    statFromJson (statToJson s) = some s := by
  obtain ⟨p, d, ts, cc, rps, flc, bl, cid⟩ := s
  obtain ⟨h1, h2, h3, h4, h5, h6, h7, h8⟩ := hw
  rcases rps with - | v1 <;> rcases flc with - | v2 <;>
    rcases bl with - | v3 <;> rcases cid with - | v4 <;>
    simp_all [statToJson, statFromJson, jLookup, decodeU32, decodeOptU32,
      optToJson]

theorem decodeStatList_map (l : List SoftnetStat) (hw : ∀ s ∈ l, wfStat s) :
    decodeStatList (l.map statToJson) = some l := by
  induction l with
  | nil => rfl
  | cons s l ih =>
    have hs := statFromJson_statToJson s (hw s (by simp))
    have hl := ih (fun s hs => hw s (by simp [hs]))
    simp [decodeStatList, hs, hl]

theorem statsFromJson_statsToJson (l : List SoftnetStat)
    (hw : ∀ s ∈ l, wfStat s) : statsFromJson (statsToJson l) = some l := by
  simp [statsToJson, statsFromJson, decodeStatList_map l hw]

/-! ### Prometheus renderer -/

theorem strToList_append (a b : String) :
    (a ++ b).toList = a.toList ++ b.toList :=
  String.data_append a b

theorem listPfx_append (p r : List Char) : listPfx p (p ++ r) = true := by
  induction p with
  | nil => rfl
  | cons a p ih => simp [listPfx, ih]

theorem hasSub_append (p b a : List Char) : hasSub p (a ++ (p ++ b)) = true := by
  induction a with
  | nil =>
    rw [List.nil_append]
    rcases hq : p ++ b with _ | ⟨c, r⟩
    · obtain ⟨rfl, rfl⟩ := List.append_eq_nil.mp hq
      rfl
    · have h1 : listPfx p (c :: r) = true := by
        rw [← hq]; exact listPfx_append p b
      simp [hasSub, h1]
  | cons c a ih =>
    simp [hasSub, ih]

/-- Every rendered exposition line carries its `cpu="cpu<N>"` label as a
substring. -/
theorem hasSub_promLine (name : String) (n v : Nat) :
    hasSub (promLabel n).toList (promLine name n v).toList = true := by
  have h : (promLine name n v).toList =
      name.toList ++ ((promLabel n).toList ++ (" " ++ toString v).toList) := by
    simp [promLine, strToList_append, List.append_assoc]
  rw [h]
  exact hasSub_append _ _ _

/-- The block of lines for the record at position `i` appears in the full
Prometheus output. -/
theorem promRecord_mem_prometheus (stats : List SoftnetStat) (i : Nat)
    (h : i < stats.length) (line : String)
    (hl : line ∈ promRecord i (stats.get ⟨i, h⟩)) : line ∈ prometheus stats := by
  have he : stats.enum.length = stats.length := by simp [List.enum]
  have hi : i < stats.enum.length := by rw [he]; exact h
  have hmem : stats.enum.get ⟨i, hi⟩ ∈ stats.enum := List.get_mem _ _ _
  have hval : stats.enum.get ⟨i, hi⟩ = (i, stats.get ⟨i, h⟩) := by
    simp [List.enum, List.get_eq_getElem, List.getElem_enumFrom]
  rw [hval] at hmem
  refine List.mem_flatten.mpr ⟨promRecord i (stats.get ⟨i, h⟩), ?_, hl⟩
  exact List.mem_map.mpr ⟨(i, stats.get ⟨i, h⟩), hmem, rfl⟩

/-! ## Claim theorems -/

/-- C1 (amended): a successful whole-input parse consumes a maximal prefix
of whole lines — the remainder is a suffix of the input at which no further
line can be parsed, and at least one record is produced — but the parse
*succeeds* even when a residual unparsed suffix remains (`many1` stops at
the first failure and `main` discards the remainder instead of reporting
an error). -/
theorem C1_success_keeps_residue {input rest : Bytes}
    {stats : List SoftnetStat}
    (h : parse_softnet_stats input = .ok (rest, stats)) :
    rest <:+ input ∧ stats ≠ [] ∧ ∃ e, parse_softnet_line rest = .error e := by
  obtain ⟨h1, h2, -, h4⟩ := parse_stats_ok h
  exact ⟨h1, h2, h4⟩

/-- C1 counterexample: on a valid line followed by the unparsable suffix
`"zz"`, the whole-input parse *succeeds* with the records of the prefix and
the nonempty residue `"zz"`, instead of failing as the claim requires. -/
theorem C1_cex :
    parse_softnet_stats (strBytes "aa aa aa aa aa aa aa aa aa\nzz") =
      .ok (strBytes "zz",
        [⟨170, 170, 170, 170, none, none, none, none⟩]) ∧
    strBytes "zz" ≠ ([] : Bytes) :=
  ⟨rfl, by decide⟩

/-- C1 witness: the amended theorem applied to the concrete input
`"aa aa aa aa aa aa aa aa aa\nzz"`. -/
theorem C1_witness :
    strBytes "zz" <:+ strBytes "aa aa aa aa aa aa aa aa aa\nzz" ∧
    ([⟨170, 170, 170, 170, none, none, none, none⟩] : List SoftnetStat) ≠ [] ∧
    ∃ e, parse_softnet_line (strBytes "zz") = .error e :=
  @C1_success_keeps_residue (strBytes "aa aa aa aa aa aa aa aa aa\nzz")
    (strBytes "zz") [⟨170, 170, 170, 170, none, none, none, none⟩] (by rfl)

/-- C2 (amended): the parser does not enforce a uniform optional-field
shape across the records of one parse — lines of differing column counts
are accepted side by side (see the counterexample); what does hold for
every accepted input is that each record individually has a gap-free
(monotone) optional shape determined by its own line. -/
theorem C2_records_monotone (input rest : Bytes) (stats : List SoftnetStat)
    (h : parse_softnet_stats input = .ok (rest, stats)) :
    ∀ s ∈ stats, monotoneShape s := by
  obtain ⟨-, -, h3, -⟩ := parse_stats_ok h
  intro s hs
  obtain ⟨i, r, hp⟩ := h3 s hs
  exact (parse_line_ok_spec hp).2.1

/-- C2 counterexample: a 9-field line followed by a 10-field line is
accepted by the whole-input parse, and the two records have different
optional-field shapes. -/
theorem C2_cex :
    parse_softnet_stats
        (strBytes "aa aa aa aa aa aa aa aa aa\naa aa aa aa aa aa aa aa aa bb\n") =
      .ok ([], [⟨170, 170, 170, 170, none, none, none, none⟩,
                ⟨170, 170, 170, 170, some 187, none, none, none⟩]) ∧
    ¬ sameShape ⟨170, 170, 170, 170, none, none, none, none⟩
        ⟨170, 170, 170, 170, some 187, none, none, none⟩ :=
  ⟨rfl, by decide⟩

/-- C2 witness: the amended theorem applied to a concrete one-line input. -/
theorem C2_witness :
    monotoneShape (⟨170, 170, 170, 170, none, none, none, none⟩ : SoftnetStat) :=
  C2_records_monotone (strBytes "aa aa aa aa aa aa aa aa aa\n") []
    [⟨170, 170, 170, 170, none, none, none, none⟩] (by rfl)
    ⟨170, 170, 170, 170, none, none, none, none⟩ (by simp)

/-- C3: a well-formed line of 10–13 hex fields parses to a record with
exactly `n - 9` optional fields present, filled in the fixed order (the
shape is gap-free); moreover *every* successfully parsed record, from any
input whatsoever, has a gap-free optional shape — a later-ordered optional
field is never present while an earlier-ordered one is absent. -/
theorem C3_optional_fill (tokens : List Bytes) (rest : Bytes)
    (hall : ∀ t ∈ tokens, isHexToken t = true)
    (h10 : 10 ≤ tokens.length) (h13 : tokens.length ≤ 13) :
    (∃ st, parse_softnet_line (mkLineR tokens rest) = .ok (rest, st) ∧
      optCount st = tokens.length - 9 ∧ monotoneShape st) ∧
    ∀ input r st, parse_softnet_line input = .ok (r, st) → monotoneShape st := by
  constructor
  · exact ⟨mkStat tokens, parse_line_tokens tokens rest hall (by omega) h13,
      optCount_mkStat tokens (by omega) h13, monotoneShape_mkStat tokens⟩
  · intro input r st hp
    exact (parse_line_ok_spec hp).2.1

/-- C3 witness: the theorem applied to a concrete 10-field line. -/
theorem C3_witness :
    (∃ st, parse_softnet_line
        (mkLineR [[97], [97], [97], [97], [97], [97], [97], [97], [97], [97]] []) =
        .ok ([], st) ∧ optCount st = 1 ∧ monotoneShape st) ∧
    ∀ input r st, parse_softnet_line input = .ok (r, st) → monotoneShape st :=
  C3_optional_fill [[97], [97], [97], [97], [97], [97], [97], [97], [97], [97]]
    [] (by decide) (by decide) (by decide)

/-- C4 (amended): the hex field tokens are accepted in lowercase *and*
uppercase (nom's `hex_u32` accepts `0-9a-fA-F`; still no `0x` prefix, no
sign, at most 8 digits per token), and a line parses to exactly the same
record as its lowercased form. -/
theorem C4_case_insensitive (tokens : List Bytes) (rest : Bytes)
    (hall : ∀ t ∈ tokens, isHexToken t = true)
    (h9 : 9 ≤ tokens.length) (h13 : tokens.length ≤ 13) :
    ∃ st, parse_softnet_line (mkLineR tokens rest) = .ok (rest, st) ∧
      parse_softnet_line (mkLineR (tokens.map lowerTok) rest) = .ok (rest, st) := by
  refine ⟨mkStat tokens, parse_line_tokens tokens rest hall h9 h13, ?_⟩
  have hall' : ∀ t ∈ tokens.map lowerTok, isHexToken t = true := by
    intro t ht
    obtain ⟨y, hy, rfl⟩ := List.mem_map.mp ht
    exact isHexToken_lower (hall y hy)
  have hp := parse_line_tokens (tokens.map lowerTok) rest hall'
    (by simpa using h9) (by simpa using h13)
  rw [hp, mkStat_lower]

/-- C4 counterexample: the claim says a line containing an uppercase hex
digit fails to parse; the line `6DCAD223 …` parses successfully (to the
same record as its lowercase form). -/
theorem C4_cex :
    parse_softnet_line (strBytes
      "6DCAD223 00000000 00000001 00000000 00000000 00000000 00000000 00000000 00000000\n") =
      .ok ([], ⟨1842008611, 0, 1, 0, none, none, none, none⟩) := rfl

/-- C4 witness: the amended theorem applied to a concrete line whose first
token is the uppercase `6DCAD223`. -/
theorem C4_witness :
    ∃ st, parse_softnet_line
        (mkLineR [[54, 68, 67, 65, 68, 50, 50, 51], [48], [48], [48], [48],
          [48], [48], [48], [48]] []) = .ok ([], st) ∧
      parse_softnet_line
        (mkLineR ([[54, 68, 67, 65, 68, 50, 50, 51], [48], [48], [48], [48],
          [48], [48], [48], [48]].map lowerTok) []) = .ok ([], st) :=
  C4_case_insensitive
    [[54, 68, 67, 65, 68, 50, 50, 51], [48], [48], [48], [48], [48], [48],
      [48], [48]] [] (by decide) (by decide) (by decide)

/-- C5: the empty input (zero bytes, hence zero lines) always fails with
the end-of-input error (`many1` propagates the `Eof` error of the first
line parse); in particular the parse never returns an empty record
sequence for it. -/
theorem C5_empty_input : parse_softnet_stats ([] : Bytes) = .error ([], .eof) :=
  rfl

/-- C6: a line with fewer than 9 space-separated hex fields before its
terminator fails to parse, whatever bytes follow the terminator: the nine
mandatory fields are never optional. -/
theorem C6_short_line (tokens : List Bytes) (rest : Bytes)
    (hall : ∀ t ∈ tokens, isHexToken t = true) (h9 : tokens.length < 9) :
    ∃ e, parse_softnet_line (mkLineR tokens rest) = .error e :=
  (isErrB_iff _).mp (parse_line_short tokens rest hall (by omega))

/-- C6 witness: the theorem applied to a concrete 5-field line followed by
further (well-formed-looking) trailing bytes. -/
theorem C6_witness :
    ∃ e, parse_softnet_line
      (mkLineR [[97], [98], [99], [100], [101]] (strBytes "aa bb\n")) =
      .error e :=
  C6_short_line [[97], [98], [99], [100], [101]] (strBytes "aa bb\n")
    (by decide) (by decide)

/-- C7 (amended): for the record at position `i`, the renderer emits
exactly 7 metric lines, each carrying the label `cpu="cpu<N>"` where `N`
is `cpu_id` when present and otherwise the 0-based position *truncated to
32 bits* (`i as u32`, i.e. `i % 2^32` — equal to `i` whenever the sequence
is shorter than `2^32` records); the lines cover exactly the seven metric
names, `softnet_cpu_id` not among them, and all appear in the full
output. -/
theorem C7_prometheus_labels (stats : List SoftnetStat) (i : Nat)
    (h : i < stats.length) :
    (∀ line ∈ promRecord i (stats.get ⟨i, h⟩), line ∈ prometheus stats) ∧
    (promRecord i (stats.get ⟨i, h⟩)).length = 7 ∧
    (∀ line ∈ promRecord i (stats.get ⟨i, h⟩),
      hasSub (promLabel ((stats.get ⟨i, h⟩).cpu_id.getD (i % 2 ^ 32))).toList
        line.toList = true) ∧
    (∃ vals : List Nat, promRecord i (stats.get ⟨i, h⟩) =
      List.zipWith
        (fun name v =>
          promLine name ((stats.get ⟨i, h⟩).cpu_id.getD (i % 2 ^ 32)) v)
        promNames vals) ∧
    "softnet_cpu_id" ∉ promNames := by
  refine ⟨fun line hl => promRecord_mem_prometheus stats i h line hl,
    rfl, ?_, ?_, by decide⟩
  · intro line hl
    simp only [promRecord, List.mem_cons, List.not_mem_nil, or_false] at hl
    rcases hl with rfl | rfl | rfl | rfl | rfl | rfl | rfl <;>
      exact hasSub_promLine _ _ _
  · exact ⟨[(stats.get ⟨i, h⟩).processed, (stats.get ⟨i, h⟩).dropped,
      (stats.get ⟨i, h⟩).time_squeeze, (stats.get ⟨i, h⟩).cpu_collision,
      (stats.get ⟨i, h⟩).received_rps.getD 0,
      (stats.get ⟨i, h⟩).flow_limit_count.getD 0,
      (stats.get ⟨i, h⟩).backlog_len.getD 0], rfl⟩

/-- C7 counterexample: at sequence position `2^32` (with `cpu_id` absent),
the `usize → u32` cast wraps, so the lines are labeled `cpu="cpu0"` — the
label `cpu="cpu4294967296"` demanded by the claim ("N is the record's
0-based sequence position") appears in none of them; here the first line
is exhibited. -/
theorem C7_cex :
    ∃ h : 2 ^ 32 < (List.replicate (2 ^ 32 + 1) stat0).length,
      ∃ line ∈ promRecord (2 ^ 32)
          ((List.replicate (2 ^ 32 + 1) stat0).get ⟨2 ^ 32, h⟩),
        hasSub (promLabel (2 ^ 32)).toList line.toList = false := by
  have hlen : (2 : Nat) ^ 32 < (List.replicate (2 ^ 32 + 1) stat0).length := by
    rw [List.length_replicate]
    exact Nat.lt_succ_self _
  refine ⟨hlen, ?_⟩
  have hget : (List.replicate (2 ^ 32 + 1) stat0).get ⟨2 ^ 32, hlen⟩ = stat0 := by
    rw [List.get_eq_getElem]
    exact List.getElem_replicate _ _
  rw [hget]
  exact ⟨promLine "softnet_frames_processed" 0 0, List.mem_cons_self _ _, by decide⟩

/-- C7 witness: the amended theorem applied to a concrete 3-record
sequence at position 2. -/
theorem C7_witness :
    (∀ line ∈ promRecord 2 ([stat0, stat0, stat0].get ⟨2, by decide⟩),
      line ∈ prometheus [stat0, stat0, stat0]) ∧
    (promRecord 2 ([stat0, stat0, stat0].get ⟨2, by decide⟩)).length = 7 ∧
    (∀ line ∈ promRecord 2 ([stat0, stat0, stat0].get ⟨2, by decide⟩),
      hasSub (promLabel (([stat0, stat0, stat0].get ⟨2, by decide⟩).cpu_id.getD
        (2 % 2 ^ 32))).toList line.toList = true) ∧
    (∃ vals : List Nat, promRecord 2 ([stat0, stat0, stat0].get ⟨2, by decide⟩) =
      List.zipWith
        (fun name v =>
          promLine name (([stat0, stat0, stat0].get ⟨2, by decide⟩).cpu_id.getD
            (2 % 2 ^ 32)) v)
        promNames vals) ∧
    "softnet_cpu_id" ∉ promNames :=
  C7_prometheus_labels [stat0, stat0, stat0] 2 (by decide)

/-- C8: JSON-encoding the record sequence of any successful parse and
decoding it back (per the serde derive semantics for `SoftnetStat`)
reproduces the identical sequence, optional-field presence included. -/
theorem C8_json_roundtrip {input rest : Bytes} {stats : List SoftnetStat}
    (h : parse_softnet_stats input = .ok (rest, stats)) :
    statsFromJson (statsToJson stats) = some stats := by
  obtain ⟨-, -, h3, -⟩ := parse_stats_ok h
  refine statsFromJson_statsToJson stats ?_
  intro s hs
  obtain ⟨i, r, hp⟩ := h3 s hs
  exact (parse_line_ok_spec hp).2.2

/-- C8 witness: the theorem applied to the result of a concrete parse. -/
theorem C8_witness :
    statsFromJson (statsToJson [⟨170, 170, 170, 170, none, none, none, none⟩]) =
      some [⟨170, 170, 170, 170, none, none, none, none⟩] :=
  @C8_json_roundtrip (strBytes "aa aa aa aa aa aa aa aa aa\n") []
    [⟨170, 170, 170, 170, none, none, none, none⟩] (by rfl)

/-- C9: the example line parses, consuming the whole input, to exactly one
record with `processed = 0x6dcad223 = 1842008611`, `dropped = 0`,
`time_squeeze = 1`, `cpu_collision = 0` and all four optional fields
absent. -/
theorem C9_example_line :
    parse_softnet_line (strBytes
      "6dcad223 00000000 00000001 00000000 00000000 00000000 00000000 00000000 00000000\n") =
      .ok ([], ⟨1842008611, 0, 1, 0, none, none, none, none⟩) ∧
    parse_softnet_stats (strBytes
      "6dcad223 00000000 00000001 00000000 00000000 00000000 00000000 00000000 00000000\n") =
      .ok ([], [⟨1842008611, 0, 1, 0, none, none, none, none⟩]) :=
  ⟨rfl, rfl⟩

/-- C10 (amended): between `time_squeeze` and `cpu_collision` the code
parses *five* (not six) legacy hex fields — 0-based token positions 3–7 —
which are consumed and validated but not stored: two well-formed lines
agreeing everywhere outside positions 3–7 parse to the same record. -/
theorem C10_legacy_not_stored (ts1 ts2 : List Bytes) (rest1 rest2 : Bytes)
    (hall1 : ∀ t ∈ ts1, isHexToken t = true)
    (hall2 : ∀ t ∈ ts2, isHexToken t = true)
    (h9 : 9 ≤ ts1.length) (h13 : ts1.length ≤ 13)
    (h9' : 9 ≤ ts2.length) (h13' : ts2.length ≤ 13)
    (hagree : ∀ i, i < 13 → (i < 3 ∨ 8 ≤ i) → ts1.get? i = ts2.get? i) :
    ∃ st, parse_softnet_line (mkLineR ts1 rest1) = .ok (rest1, st) ∧
      parse_softnet_line (mkLineR ts2 rest2) = .ok (rest2, st) := by
  refine ⟨mkStat ts1, parse_line_tokens ts1 rest1 hall1 h9 h13, ?_⟩
  rw [parse_line_tokens ts2 rest2 hall2 h9' h13', mkStat_congr ts1 ts2 hagree]

/-- C10 counterexample: under the spec's own data model the six legacy
fields are the 0-based positions 3–8; two lines agreeing everywhere except
position 8 parse to *different* records (the code stores the 9th field as
`cpu_collision`), refuting the claim as stated. -/
theorem C10_cex :
    parse_softnet_line (strBytes "aa aa aa aa aa aa aa aa 01 02\n") =
      .ok ([], ⟨170, 170, 170, 1, some 2, none, none, none⟩) ∧
    parse_softnet_line (strBytes "aa aa aa aa aa aa aa aa 03 02\n") =
      .ok ([], ⟨170, 170, 170, 3, some 2, none, none, none⟩) ∧
    (⟨170, 170, 170, 1, some 2, none, none, none⟩ : SoftnetStat) ≠
      ⟨170, 170, 170, 3, some 2, none, none, none⟩ :=
  ⟨rfl, rfl, by decide⟩

/-- C10 witness: the amended theorem applied to two concrete 10-field
lines differing only at position 4 (a legacy slot). -/
theorem C10_witness :
    ∃ st, parse_softnet_line
        (mkLineR [[97], [97], [97], [97], [98], [97], [97], [97], [97], [97]] []) =
        .ok ([], st) ∧
      parse_softnet_line
        (mkLineR [[97], [97], [97], [97], [99], [97], [97], [97], [97], [97]] []) =
        .ok ([], st) :=
  C10_legacy_not_stored
    [[97], [97], [97], [97], [98], [97], [97], [97], [97], [97]]
    [[97], [97], [97], [97], [99], [97], [97], [97], [97], [97]]
    [] [] (by decide) (by decide) (by decide) (by decide) (by decide)
    (by decide) (by decide)

end Softnet
